import Mathlib

/-!
Shallow embedding of the chord recognition library (`src/lib/chords.js`,
full variant with single-note and dyad short-circuits and slash-bass
naming). MIDI note identities are JavaScript numbers restricted to
integers, modelled as `Int`; the JavaScript remainder operator `%` is
`Int.tmod` (sign of the dividend). A JavaScript `Set` is modelled as a
duplicate-free list in insertion order, which is exactly the iteration
order the code observes via `for ... of` and `Array.from`.
-/

namespace Chords

/-- JavaScript `((n % 12) + 12) % 12`: pitch-class reduction of a note id. -/
def pcOf (n : Int) : Int := ((n.tmod 12) + 12).tmod 12

/-- `ROOT_NAMES` table (split in two halves for readability; the
concatenation is the source's 12-entry literal). -/
def ROOT_NAMES : List String :=
  ["C","C#","D","D#","E","F"] ++ ["F#","G","G#","A","A#","B"]

/-- `ROOT_NAMES[pc]` (out-of-range indexing yields `""`, standing for
JavaScript `undefined`; all reachable indices are in range). -/
def rootNameOf (pc : Int) : String := ROOT_NAMES.getD pc.toNat ""

/-- JavaScript `Set.add`: append the element unless already present
(insertion order preserved, duplicates collapsed). -/
def setAdd (s : List Int) (x : Int) : List Int := if x ∈ s then s else s ++ [x]

/-- `midiArrayToPCSet`: the pitch-class set of the pressed notes, as the
insertion-ordered duplicate-free list a JavaScript `Set` holds. -/
def midiArrayToPCSet (notes : List Int) : List Int :=
  notes.foldl (fun s n => setAdd s (pcOf n)) []

/-- `chordFormulas`, in source (insertion) order. -/
def chordFormulas : List (String × List Int) :=
  [("fifth",[0,7]), ("major",[0,4,7]), ("minor",[0,3,7]), ("dim",[0,3,6]),
   ("aug",[0,4,8]), ("sus2",[0,2,7]), ("sus4",[0,5,7]), ("flat5",[0,4,6]),
   ("6",[0,4,7,9]), ("m6",[0,3,7,9]),
   ("7",[0,4,7,10]), ("m7",[0,3,7,10]), ("dim7",[0,3,6,9]), ("M7",[0,4,7,11]),
   ("mM7",[0,3,7,11]), ("7sus2",[0,2,7,10]), ("7sus4",[0,5,7,10]),
   ("7b5",[0,4,6,10]), ("7#5",[0,4,8,10]), ("m7b5",[0,3,6,10]), ("m7#5",[0,3,8,10]),
   ("add9",[0,4,7,14]), ("madd9",[0,3,7,14]), ("add11",[0,4,7,17]),
   ("madd11",[0,3,7,17]), ("add13",[0,4,7,21]), ("madd13",[0,3,7,21]),
   ("7/6",[0,4,7,9,10]), ("9/6",[0,4,7,9,14]), ("m9/6",[0,3,7,9,14]),
   ("9",[0,4,7,10,14]), ("m9",[0,3,7,10,14]), ("b9",[0,4,7,10,13]),
   ("mb9",[0,3,7,10,13]), ("9#5",[0,4,8,10,14]), ("9sus4",[0,5,7,10,14]),
   ("9b5",[0,4,6,10,14]), ("m9b5",[0,3,6,10,14]), ("m9#5",[0,3,8,10,14]),
   ("M9",[0,4,7,11,14]),
   ("11",[0,4,7,10,14,17]), ("m11",[0,3,7,10,14,17]), ("M11",[0,4,7,11,14,17]),
   ("11b5",[0,4,6,10,14,17]), ("11#5",[0,4,8,10,14,17]), ("11M7",[0,4,7,11,14,17]),
   ("11b9",[0,4,7,10,13,17]), ("11#9",[0,4,7,10,15,17]),
   ("13",[0,4,7,10,14,17,21]), ("M13",[0,4,7,11,14,17,21]), ("m13",[0,3,7,10,14,17,21]),
   ("13b5",[0,4,6,10,14,17,21]), ("13#5",[0,4,8,10,14,17,21])]

/-- The keys of `chordFormulas` that are array-index-like strings; a
JavaScript object enumerates these first, in ascending numeric order. -/
def jsIntegerKeys : List String := ["6","7","9","11","13"]

/-- `Object.keys(chordFormulas)` enumeration order: array-index-like keys
first in ascending numeric order, then the remaining keys in insertion
order (JavaScript property enumeration rules). -/
def chordFormulasEnum : List (String × List Int) :=
  jsIntegerKeys.filterMap (fun k => chordFormulas.find? (fun p => p.1 = k)) ++
  chordFormulas.filter (fun p => ¬ p.1 ∈ jsIntegerKeys)

/-- `chordPriority`, in source order. -/
def chordPriority : List String :=
  ["fifth","major","minor","dim","aug","sus2","sus4","flat5","6","m6",
   "7","m7","dim7","M7","mM7","7sus2","7sus4","7b5","7#5","m7b5","m7#5",
   "add9","madd9","add11","madd11","add13","madd13",
   "7/6","9/6","m9/6",
   "9","m9","b9","mb9","9#5","9sus4","9b5","m9b5","m9#5","M9",
   "11","m11","M11","11b5","11#5","11M7","11b9","11#9",
   "13","M13","m13","13b5","13#5"]

/-- JavaScript `Array.prototype.indexOf`: index of the first occurrence,
`-1` if absent. -/
def jsIndexOf [DecidableEq α] (l : List α) (x : α) : Int :=
  if x ∈ l then (l.indexOf x : Int) else -1

/-- A precomputed template: one chord formula transposed to one root. -/
structure Template where
  root : Int
  type : String
  pcs : List Int
  size : Int
deriving DecidableEq, Repr

/-- One entry of `generateTemplates`' inner loop: transpose the formula's
intervals by the root and collect them into a pitch-class `Set`. -/
def mkTemplate (root : Int) (ty : String) (ints : List Int) : Template :=
  let pcs := ints.foldl (fun s i => setAdd s (pcOf (root + i))) []
  { root := root, type := ty, pcs := pcs, size := (pcs.length : Int) }

/-- The template bank: all 12 roots crossed with every chord type, in the
order `generateTemplates` pushes them. -/
def templates : List Template :=
  (List.range 12).flatMap
    (fun root => chordFormulasEnum.map (fun p => mkTemplate (root : Int) p.1 p.2))

/-- A candidate recognition result (the object literal `recognize` pushes). -/
structure Match where
  root : Int
  rootName : String
  type : String
  typeIndex : Int
  matchedCount : Int
  chordSize : Int
  isSubset : Bool
  exactMatch : Bool
  matchedPCs : List Int
  missingPCs : List Int
  extraPCs : List Int
  chordPCs : List Int
deriving DecidableEq, Repr

/-- The synthetic single-pitch-class result. -/
def singleMatch (pc : Int) : Match :=
  { root := pc, rootName := rootNameOf pc, type := "single", typeIndex := -1,
    matchedCount := 1, chordSize := 1, isSubset := true, exactMatch := true,
    matchedPCs := [pc], missingPCs := [], extraPCs := [], chordPCs := [pc] }

/-- The synthetic two-note "fifth" result (used for both the perfect-fifth
and the inverted-fourth dyads, with the appropriate root). -/
def fifthMatch (root lowerPC higherPC : Int) : Match :=
  { root := root, rootName := rootNameOf root, type := "fifth",
    typeIndex := jsIndexOf chordPriority "fifth",
    matchedCount := 2, chordSize := 2, isSubset := true, exactMatch := true,
    matchedPCs := [lowerPC, higherPC], missingPCs := [], extraPCs := [],
    chordPCs := [lowerPC, higherPC] }

/-- The match object the general loop builds for one template (with the
`exactMatch` flag already set to `matchedCount === pressedPCs.size`, which
the code assigns in a second pass over all results before sorting). -/
def matchOfTemplate (pressedPCs : List Int) (t : Template) : Match :=
  let matched := pressedPCs.countP (fun p => p ∈ t.pcs)
  { root := t.root, rootName := rootNameOf t.root, type := t.type,
    typeIndex := jsIndexOf chordPriority t.type,
    matchedCount := (matched : Int), chordSize := t.size,
    isSubset := pressedPCs.all (fun p => p ∈ t.pcs),
    exactMatch := decide (matched = pressedPCs.length),
    matchedPCs := pressedPCs.filter (fun p => p ∈ t.pcs),
    missingPCs := t.pcs.filter (fun cp => ¬ cp ∈ pressedPCs),
    extraPCs := pressedPCs.filter (fun p => ¬ p ∈ t.pcs),
    chordPCs := t.pcs }

/-- The unsorted result list of the general matching loop: every template
with at least one overlapping pitch class contributes one match, templates
with zero overlap are skipped (`continue`). -/
def generalResults (pressedPCs : List Int) : List Match :=
  templates.filterMap (fun t =>
    if pressedPCs.countP (fun p => p ∈ t.pcs) = 0 then none
    else some (matchOfTemplate pressedPCs t))

/-- `b.exactMatch ? 1 : 0`. -/
def boolToInt (b : Bool) : Int := if b then 1 else 0

/-- `a.typeIndex === -1 ? 999 : a.typeIndex` — matches whose type is
absent from the priority table sort last. -/
def effTypeIndex (a : Match) : Int := if a.typeIndex = -1 then 999 else a.typeIndex

/-- The sort comparator of `recognize` (`results.sort((a,b) => ...)`),
returning the JavaScript comparator's number. -/
def cmpMatch (a b : Match) : Int :=
  if boolToInt b.exactMatch ≠ boolToInt a.exactMatch then
    boolToInt b.exactMatch - boolToInt a.exactMatch
  else if b.matchedCount ≠ a.matchedCount then b.matchedCount - a.matchedCount
  else if effTypeIndex a ≠ effTypeIndex b then effTypeIndex a - effTypeIndex b
  else if a.chordSize ≠ b.chordSize then a.chordSize - b.chordSize
  else if a.root ≠ b.root then a.root - b.root
  else 0

/-- Statement of the §4.4 ranking comparator taken from the specification's
words: `exactMatch` descending, then `matchedCount` descending, then
chord-priority index ascending (absent types last, via `effTypeIndex`),
then `chordSize` ascending, then `root` ascending — `a` strictly before
`b`. -/
def specKeyLt (a b : Match) : Prop :=
  boolToInt b.exactMatch < boolToInt a.exactMatch
  ∨ (boolToInt a.exactMatch = boolToInt b.exactMatch ∧
     (b.matchedCount < a.matchedCount
      ∨ (a.matchedCount = b.matchedCount ∧
         (effTypeIndex a < effTypeIndex b
          ∨ (effTypeIndex a = effTypeIndex b ∧
             (a.chordSize < b.chordSize
              ∨ (a.chordSize = b.chordSize ∧ a.root < b.root)))))))

/-- Equality of all five sort keys. -/
def keyEq (a b : Match) : Prop :=
  boolToInt a.exactMatch = boolToInt b.exactMatch
  ∧ a.matchedCount = b.matchedCount
  ∧ effTypeIndex a = effTypeIndex b
  ∧ a.chordSize = b.chordSize
  ∧ a.root = b.root

/-- Non-strict "sorts before or ties" relation induced by the comparator
(`comparator(a,b) <= 0`). -/
def MatchLE (a b : Match) : Prop := cmpMatch a b ≤ 0

instance : DecidableRel MatchLE := fun a b => Int.decLe (cmpMatch a b) 0

/-- `Array.prototype.sort` with a consistent comparator returns the stable
sort of the array by that comparator; modelled by insertion sort, which is
exactly that stable sort. -/
def sortMatches (l : List Match) : List Match := l.insertionSort MatchLE

/-- The `pcToMinMidi` map of the dyad branch, as a lookup function: the
lowest MIDI value seen for a pitch class (`none` if the class is absent). -/
def pcToMinMidi (arr : List Int) (pc : Int) : Option Int :=
  arr.foldl (fun acc m =>
    if pcOf m = pc then
      some (match acc with | none => m | some v => if m < v then m else v)
    else acc) none

/-- `pcs[0]` of the dyad branch. -/
def dyadPCA (pcs : List Int) : Int := pcs.getD 0 0

/-- `pcs[1]` of the dyad branch. -/
def dyadPCB (pcs : List Int) : Int := pcs.getD 1 0

/-- The pitch class sounding lower in absolute pitch: compare the lowest
MIDI value observed for each of the two pitch classes. -/
def dyadLowerPC (arr pcs : List Int) : Int :=
  if (pcToMinMidi arr (dyadPCA pcs)).getD 0 ≤ (pcToMinMidi arr (dyadPCB pcs)).getD 0
  then dyadPCA pcs else dyadPCB pcs

/-- The other pitch class of the dyad. -/
def dyadHigherPC (arr pcs : List Int) : Int :=
  if dyadLowerPC arr pcs = dyadPCA pcs then dyadPCB pcs else dyadPCA pcs

/-- `((higherPC - lowerPC) + 12) % 12`. -/
def dyadInterval (arr pcs : List Int) : Int :=
  ((dyadHigherPC arr pcs - dyadLowerPC arr pcs) + 12).tmod 12

/-- The two-pitch-class special handling of `recognize`: unison guard,
perfect fifth rooted on the lower note, perfect fourth treated as a fifth
rooted on the upper note, otherwise fall through to general matching. -/
def dyadBranch (arr pcs : List Int) : List Match :=
  if dyadInterval arr pcs = 0 then [singleMatch (dyadLowerPC arr pcs)]
  else if dyadInterval arr pcs = 7 then
    [fifthMatch (dyadLowerPC arr pcs) (dyadLowerPC arr pcs) (dyadHigherPC arr pcs)]
  else if dyadInterval arr pcs = 5 then
    [fifthMatch (dyadHigherPC arr pcs) (dyadLowerPC arr pcs) (dyadHigherPC arr pcs)]
  else sortMatches (generalResults pcs)

/-- `recognize(pressedNotes)` on an array of MIDI numbers. (A `Set`
argument is converted by `Array.from` into exactly such a list; an empty
array or `Set` is caught by the initial emptiness guard.) -/
def recognize (pressedNotes : List Int) : List Match :=
  if pressedNotes.length = 0 then []
  else
    let pressedPCs := midiArrayToPCSet pressedNotes
    if pressedPCs.length = 1 then [singleMatch (pressedPCs.headD 0)]
    else if pressedPCs.length = 2 then dyadBranch pressedNotes pressedPCs
    else sortMatches (generalResults pressedPCs)

/-- `typeSuffixMap` (display suffixes, superscript notation variant). -/
def typeSuffixMap : List (String × String) :=
  [("fifth","⁵"), ("major",""), ("minor","m"), ("dim","°"), ("aug","⁺"),
   ("sus2","sus²"), ("sus4","sus⁴"), ("flat5","♭⁵"), ("6","⁶"), ("m6","m⁶"),
   ("7","⁷"), ("m7","m⁷"), ("dim7","°⁷"), ("M7","M⁷"), ("mM7","mM⁷"),
   ("7sus2","⁷sus²"), ("7sus4","⁷sus⁴"), ("7b5","⁷♭⁵"), ("7#5","⁷⁺⁵"),
   ("m7b5","m⁷♭⁵"), ("m7#5","m⁷⁺⁵"),
   ("add9","add⁹"), ("madd9","madd⁹"), ("add11","add¹¹"), ("madd11","madd¹¹"),
   ("add13","add¹³"), ("madd13","madd¹³"),
   ("7/6","⁷/⁶"), ("9/6","⁹/⁶"), ("m9/6","m⁹/⁶"),
   ("9","⁹"), ("m9","m⁹"), ("b9","♭⁹"), ("mb9","m♭⁹"), ("9#5","⁹⁺⁵"),
   ("9sus4","⁹sus⁴"), ("9b5","⁹♭⁵"), ("m9b5","m⁹♭⁵"), ("m9#5","m⁹⁺⁵"),
   ("M9","M⁹"),
   ("11","¹¹"), ("m11","m¹¹"), ("M11","M¹¹"), ("11b5","¹¹♭⁵"), ("11#5","¹¹⁺⁵"),
   ("11M7","¹¹M⁷"), ("11b9","¹¹♭⁹"), ("11#9","¹¹⁺⁹"),
   ("13","¹³"), ("M13","M¹³"), ("m13","m¹³"), ("13b5","¹³♭⁵"), ("13#5","¹³⁺⁵")]

/-- `typeSuffixMap[match.type] !== undefined ? typeSuffixMap[match.type] :
match.type`. -/
def suffixOf (ty : String) : String :=
  match typeSuffixMap.find? (fun p => p.1 = ty) with
  | some p => p.2
  | none => ty

/-- `typeLongNameMap`. -/
def typeLongNameMap : List (String × String) :=
  [("fifth","Power Fifth"), ("major","Major"), ("minor","Minor"),
   ("dim","Diminished"), ("aug","Augmented"), ("sus2","Suspended 2nd"),
   ("sus4","Suspended 4th"), ("flat5","Flat Fifth"), ("6","Sixth"),
   ("m6","Minor Sixth"), ("7","Dominant Seventh"), ("m7","Minor Seventh"),
   ("dim7","Diminished Seventh"), ("M7","Major Seventh"),
   ("mM7","Minor Major Seventh"), ("7sus2","Seventh Suspended 2nd"),
   ("7sus4","Seventh Suspended 4th"), ("7b5","Seventh Flat Fifth"),
   ("7#5","Seventh Raised Fifth"),
   ("m7b5","Half-Diminished (Minor Seventh Flat Five)"),
   ("m7#5","Minor Seventh Raised Fifth"), ("add9","Added Ninth"),
   ("madd9","Minor Added Ninth"), ("add11","Added Eleventh"),
   ("madd11","Minor Added Eleventh"), ("add13","Added Thirteenth"),
   ("madd13","Minor Added Thirteenth"), ("7/6","Seven-Six Combination"),
   ("9/6","Nine-Six Combination"), ("m9/6","Minor Nine-Six Combination"),
   ("9","Ninth"), ("m9","Minor Ninth"), ("b9","Flat Ninth"),
   ("mb9","Minor Flat Ninth"), ("9#5","Ninth Raised Fifth"),
   ("9sus4","Ninth Suspended 4th"), ("9b5","Ninth Flat Fifth"),
   ("m9b5","Minor Ninth Flat Fifth"), ("m9#5","Minor Ninth Raised Fifth"),
   ("M9","Major Ninth"), ("11","Eleventh"), ("m11","Minor Eleventh"),
   ("M11","Major Eleventh"), ("11b5","Eleventh Flat Fifth"),
   ("11#5","Eleventh Raised Fifth"), ("11M7","Eleventh with Major Seventh"),
   ("11b9","Eleventh Flat Ninth"), ("11#9","Eleventh Raised Ninth"),
   ("13","Thirteenth"), ("M13","Major Thirteenth"), ("m13","Minor Thirteenth"),
   ("13b5","Thirteenth Flat Fifth"), ("13#5","Thirteenth Raised Fifth")]

/-- `typeLongNameMap[type] || type` (JavaScript `||` also replaces an
empty string, modelled faithfully). -/
def longNameFor (ty : String) : String :=
  match typeLongNameMap.find? (fun p => p.1 = ty) with
  | some p => if p.2 = "" then ty else p.2
  | none => ty

/-- `chordFormulas[match.type] || []`. -/
def formulaOf (ty : String) : List Int :=
  match chordFormulas.find? (fun p => p.1 = ty) with
  | some p => p.2
  | none => []

/-- `Math.min(...pressedMidiArray)` (only applied to non-empty arrays). -/
def jsMin (l : List Int) : Int := l.foldl min (l.headD 0)

/-- `ord === 1 ? '1st' : ord === 2 ? '2nd' : ord === 3 ? '3rd' : ord+'th'`. -/
def ordinalLabel (ord : Int) : String :=
  if ord = 1 then "1st" else if ord = 2 then "2nd" else if ord = 3 then "3rd"
  else toString ord ++ "th"

/-- The formatted result record of `formatMatch`. -/
structure FormattedMatch where
  displayName : String
  inversion : Option String
  bassName : Option String
  longName : String
deriving DecidableEq, Repr

/-- `formatMatch(match, pressedMidiArray)`: display name (root + suffix,
with slash bass where applicable), inversion wording, bass note name and
long name. -/
def formatMatch (m : Match) (pressedMidiArray : List Int) : FormattedMatch :=
  let rootName := m.rootName
  let suffix := suffixOf m.type
  if m.type = "single" then
    { displayName := rootName, inversion := none, bassName := some rootName,
      longName := "Single Note" }
  else if pressedMidiArray.length > 0 then
    let bassPC := pcOf (jsMin pressedMidiArray)
    let bassName := rootNameOf bassPC
    let orderedTones := (formulaOf m.type).map (fun i => pcOf (m.root + i))
    let idx := jsIndexOf orderedTones bassPC
    let inversion :=
      if m.chordSize ≤ 4 then
        if idx = -1 then "no chord tone in bass"
        else if idx = 0 then "root position"
        else ordinalLabel idx ++ " inversion"
      else "slash bass"
    let base := rootName ++ suffix
    let displayName :=
      if m.chordSize > 4 ∧ bassName ≠ "" then base ++ "/" ++ bassName
      else if bassName ≠ "" ∧ m.chordSize = 2 ∧ m.type = "fifth" then
        (if bassName ≠ rootName then base ++ "/" ++ bassName else base)
      else base
    { displayName := displayName, inversion := some inversion,
      bassName := some bassName, longName := longNameFor m.type }
  else
    { displayName := rootName ++ suffix, inversion := none, bassName := none,
      longName := longNameFor m.type }

/-! ### Basic lemmas on pitch-class reduction -/

theorem pcOf_eq_emod (n : Int) : pcOf n = n % 12 := by
  rcases n with m | m
  · have h1 : (Int.ofNat m).tmod 12 = Int.ofNat (m % 12) := rfl
    unfold pcOf
    rw [h1]
    simp only [Int.ofNat_eq_coe]
    have h2 : (0:Int) ≤ (↑(m % 12) : Int) + 12 := by omega
    rw [Int.tmod_eq_emod h2 (by norm_num)]
    omega
  · have h1 : (Int.negSucc m).tmod 12 = -(Int.ofNat ((m+1) % 12)) := rfl
    unfold pcOf
    rw [h1]
    simp only [Int.ofNat_eq_coe, Int.negSucc_eq]
    have h2 : (0:Int) ≤ -(↑((m+1) % 12) : Int) + 12 := by
      have := @Nat.mod_lt (m+1) 12 (by omega)
      omega
    rw [Int.tmod_eq_emod h2 (by norm_num)]
    omega

theorem pcOf_nonneg (n : Int) : 0 ≤ pcOf n := by rw [pcOf_eq_emod]; omega

theorem pcOf_lt (n : Int) : pcOf n < 12 := by rw [pcOf_eq_emod]; omega

/-! ### The comparator is a total preorder whose ties are key equality -/

theorem cmpMatch_lt_iff (a b : Match) : cmpMatch a b < 0 ↔ specKeyLt a b := by
  unfold cmpMatch specKeyLt
  split_ifs <;> omega

theorem cmpMatch_eq_iff (a b : Match) : cmpMatch a b = 0 ↔ keyEq a b := by
  unfold cmpMatch keyEq
  split_ifs <;> omega

theorem cmpMatch_le_iff (a b : Match) : cmpMatch a b ≤ 0 ↔ specKeyLt a b ∨ keyEq a b := by
  rw [← cmpMatch_lt_iff, ← cmpMatch_eq_iff]
  omega

theorem cmpMatch_trans {a b c : Match} (h1 : cmpMatch a b ≤ 0) (h2 : cmpMatch b c ≤ 0) :
    cmpMatch a c ≤ 0 := by
  rw [cmpMatch_le_iff] at h1 h2 ⊢
  unfold specKeyLt keyEq at h1 h2 ⊢
  omega

theorem cmpMatch_total (a b : Match) : cmpMatch a b ≤ 0 ∨ cmpMatch b a ≤ 0 := by
  unfold cmpMatch
  split_ifs <;> omega

/-! ### The pressed pitch-class set -/

theorem mem_setAdd {s : List Int} {x y : Int} : y ∈ setAdd s x ↔ y ∈ s ∨ y = x := by
  unfold setAdd
  split_ifs with h
  · exact ⟨Or.inl, fun h' => h'.elim id (fun e => e ▸ h)⟩
  · simp [List.mem_append]

theorem nodup_setAdd {s : List Int} {x : Int} (h : s.Nodup) : (setAdd s x).Nodup := by
  unfold setAdd
  split_ifs with hx
  · exact h
  · simp only [List.nodup_append, List.nodup_cons, List.not_mem_nil, not_false_iff,
      List.nodup_nil, and_true, true_and]
    refine ⟨h, fun a ha hb => ?_⟩
    simp only [List.mem_singleton] at hb
    exact hx (hb ▸ ha)

theorem mem_foldl_pcs (notes : List Int) (acc : List Int) (y : Int) :
    y ∈ notes.foldl (fun s n => setAdd s (pcOf n)) acc ↔
      y ∈ acc ∨ ∃ n ∈ notes, pcOf n = y := by
  induction notes generalizing acc with
  | nil => simp
  | cons n t ih =>
    rw [List.foldl_cons, ih, mem_setAdd]
    constructor
    · rintro ((h | h) | ⟨m, hm, hp⟩)
      · exact Or.inl h
      · exact Or.inr ⟨n, by simp, h.symm⟩
      · exact Or.inr ⟨m, by simp [hm], hp⟩
    · rintro (h | ⟨m, hm, hp⟩)
      · exact Or.inl (Or.inl h)
      · rcases List.mem_cons.mp hm with rfl | hm'
        · exact Or.inl (Or.inr hp.symm)
        · exact Or.inr ⟨m, hm', hp⟩

theorem nodup_foldl_pcs (notes : List Int) (acc : List Int) (h : acc.Nodup) :
    (notes.foldl (fun s n => setAdd s (pcOf n)) acc).Nodup := by
  induction notes generalizing acc with
  | nil => exact h
  | cons n t ih => exact ih _ (nodup_setAdd h)

theorem midiArrayToPCSet_nodup (notes : List Int) : (midiArrayToPCSet notes).Nodup :=
  nodup_foldl_pcs notes [] List.nodup_nil

theorem mem_midiArrayToPCSet {notes : List Int} {y : Int} :
    y ∈ midiArrayToPCSet notes ↔ ∃ n ∈ notes, pcOf n = y := by
  rw [midiArrayToPCSet, mem_foldl_pcs]
  simp

theorem midiArrayToPCSet_bounds {notes : List Int} {y : Int}
    (h : y ∈ midiArrayToPCSet notes) : 0 ≤ y ∧ y < 12 := by
  obtain ⟨n, _, rfl⟩ := mem_midiArrayToPCSet.mp h
  exact ⟨pcOf_nonneg n, pcOf_lt n⟩

theorem midiArrayToPCSet_eq_nil {notes : List Int} :
    midiArrayToPCSet notes = [] ↔ notes = [] := by
  constructor
  · intro h
    cases notes with
    | nil => rfl
    | cons n t =>
      have : pcOf n ∈ midiArrayToPCSet (n :: t) :=
        mem_midiArrayToPCSet.mpr ⟨n, by simp, rfl⟩
      rw [h] at this
      simp at this
  · rintro rfl; rfl

theorem foldl_pcs_const {p : Int} (t : List Int) (h : ∀ n ∈ t, pcOf n = p) :
    t.foldl (fun s n => setAdd s (pcOf n)) [p] = [p] := by
  induction t with
  | nil => rfl
  | cons n rest ih =>
    rw [List.foldl_cons]
    have hn : pcOf n = p := h n (by simp)
    have : setAdd [p] (pcOf n) = [p] := by
      unfold setAdd
      rw [if_pos (by simp [hn])]
    rw [this]
    exact ih (fun m hm => h m (by simp [hm]))

theorem midiArrayToPCSet_const {notes : List Int} {p : Int} (h1 : notes ≠ [])
    (h2 : ∀ n ∈ notes, pcOf n = p) : midiArrayToPCSet notes = [p] := by
  cases notes with
  | nil => exact absurd rfl h1
  | cons n t =>
    unfold midiArrayToPCSet
    rw [List.foldl_cons]
    have hn : pcOf n = p := h2 n (by simp)
    have : setAdd [] (pcOf n) = [p] := by unfold setAdd; simp [hn]
    rw [this]
    exact foldl_pcs_const t (fun m hm => h2 m (by simp [hm]))

/-! ### Template bank structure -/

theorem mkTemplate_root (r : Int) (ty : String) (ints : List Int) :
    (mkTemplate r ty ints).root = r := rfl

theorem mkTemplate_type (r : Int) (ty : String) (ints : List Int) :
    (mkTemplate r ty ints).type = ty := rfl

theorem mem_templates_iff {t : Template} :
    t ∈ templates ↔
      ∃ r ∈ List.range 12, ∃ p ∈ chordFormulasEnum, mkTemplate (r : Int) p.1 p.2 = t := by
  simp [templates, List.mem_flatMap, List.mem_map]

theorem chordTypesEnum_nodup : (chordFormulasEnum.map Prod.fst).Nodup := by decide

theorem chordTypesEnum_mem_priority : ∀ p ∈ chordFormulasEnum, p.1 ∈ chordPriority := by
  decide

theorem templates_type_mem {t : Template} (h : t ∈ templates) : t.type ∈ chordPriority := by
  obtain ⟨r, _, p, hp, rfl⟩ := mem_templates_iff.mp h
  exact chordTypesEnum_mem_priority p hp

theorem templatesKey_nodup : (templates.map fun t => (t.root, t.type)).Nodup := by
  rw [templates, List.map_flatMap]
  have hgrp : ∀ r : Nat,
      ((chordFormulasEnum.map fun p => mkTemplate (r : Int) p.1 p.2).map
          fun t => (t.root, t.type)) =
        chordFormulasEnum.map fun p => ((r : Int), p.1) := by
    intro r
    rw [List.map_map]
    exact List.map_congr_left (fun p _ => rfl)
  rw [List.nodup_flatMap]
  constructor
  · intro r _
    rw [hgrp r]
    have : (chordFormulasEnum.map fun p => ((r : Int), p.1)) =
        (chordFormulasEnum.map Prod.fst).map (fun ty => ((r : Int), ty)) := by
      rw [List.map_map]
      exact List.map_congr_left (fun p _ => rfl)
    rw [this]
    exact chordTypesEnum_nodup.map (fun x y hxy => congrArg Prod.snd hxy)
  · have hr : (List.range 12).Pairwise (· ≠ ·) := List.nodup_range 12
    refine hr.imp_of_mem ?_
    intro r₁ r₂ _ _ hne
    rw [Function.onFun, hgrp r₁, hgrp r₂]
    intro a ha hb
    simp only [List.mem_map] at ha hb
    obtain ⟨p₁, _, rfl⟩ := ha
    obtain ⟨p₂, _, hEq⟩ := hb
    have : ((r₂ : Nat) : Int) = ((r₁ : Nat) : Int) := congrArg Prod.fst hEq
    exact hne (by exact_mod_cast this.symm)

theorem templates_nodup : templates.Nodup :=
  List.Nodup.of_map _ templatesKey_nodup

/-! ### The general matching loop's candidate list -/

theorem mem_generalResults {pcs : List Int} {m : Match} :
    m ∈ generalResults pcs ↔
      ∃ t ∈ templates, ¬ (pcs.countP (fun p => p ∈ t.pcs) = 0) ∧
        m = matchOfTemplate pcs t := by
  unfold generalResults
  rw [List.mem_filterMap]
  constructor
  · rintro ⟨t, ht, hf⟩
    by_cases hc : pcs.countP (fun p => p ∈ t.pcs) = 0
    · rw [if_pos hc] at hf
      exact absurd hf (by simp)
    · rw [if_neg hc] at hf
      exact ⟨t, ht, hc, (Option.some_injective _ hf).symm⟩
  · rintro ⟨t, ht, hc, rfl⟩
    exact ⟨t, ht, by rw [if_neg hc]⟩

theorem matchOfTemplate_inj {pcs : List Int} {t₁ t₂ : Template}
    (h : matchOfTemplate pcs t₁ = matchOfTemplate pcs t₂) : t₁ = t₂ := by
  have hroot : t₁.root = t₂.root := congrArg Match.root h
  have htype : t₁.type = t₂.type := congrArg Match.type h
  have hpcs : t₁.pcs = t₂.pcs := congrArg Match.chordPCs h
  have hsize : t₁.size = t₂.size := congrArg Match.chordSize h
  cases t₁; cases t₂
  simp_all

theorem generalResults_nodup (pcs : List Int) : (generalResults pcs).Nodup := by
  refine List.Nodup.filterMap ?_ templates_nodup
  intro t₁ t₂ m hm₁ hm₂
  rw [Option.mem_def] at hm₁ hm₂
  by_cases hc₁ : pcs.countP (fun p => p ∈ t₁.pcs) = 0
  · rw [if_pos hc₁] at hm₁; exact absurd hm₁ (by simp)
  by_cases hc₂ : pcs.countP (fun p => p ∈ t₂.pcs) = 0
  · rw [if_pos hc₂] at hm₂; exact absurd hm₂ (by simp)
  rw [if_neg hc₁] at hm₁
  rw [if_neg hc₂] at hm₂
  have e₁ : matchOfTemplate pcs t₁ = m := Option.some_injective _ hm₁
  have e₂ : matchOfTemplate pcs t₂ = m := Option.some_injective _ hm₂
  exact matchOfTemplate_inj (e₁.trans e₂.symm)

theorem typeIndex_of_mem_generalResults {pcs : List Int} {m : Match}
    (hm : m ∈ generalResults pcs) : 0 ≤ m.typeIndex ∧ effTypeIndex m = m.typeIndex := by
  obtain ⟨t, ht, _, rfl⟩ := mem_generalResults.mp hm
  have hmem : t.type ∈ chordPriority := templates_type_mem ht
  have h1 : (matchOfTemplate pcs t).typeIndex = (chordPriority.indexOf t.type : Int) := by
    show jsIndexOf chordPriority t.type = _
    unfold jsIndexOf
    rw [if_pos hmem]
  constructor
  · rw [h1]; exact Int.natCast_nonneg _
  · unfold effTypeIndex
    rw [if_neg]
    rw [h1]
    omega

/-- Two distinct candidates of one recognition call never compare equal:
the five keys pin down the template, which pins down the whole match. -/
theorem generalResults_eq_of_cmp {pcs : List Int} {a b : Match}
    (ha : a ∈ generalResults pcs) (hb : b ∈ generalResults pcs)
    (h : cmpMatch a b = 0) : a = b := by
  have hia := typeIndex_of_mem_generalResults ha
  have hib := typeIndex_of_mem_generalResults hb
  obtain ⟨t₁, ht₁, _, rfl⟩ := mem_generalResults.mp ha
  obtain ⟨t₂, ht₂, _, rfl⟩ := mem_generalResults.mp hb
  obtain ⟨_, _, hti, _, hroot⟩ := (cmpMatch_eq_iff _ _).mp h
  have hmem₁ : t₁.type ∈ chordPriority := templates_type_mem ht₁
  have hmem₂ : t₂.type ∈ chordPriority := templates_type_mem ht₂
  have hr : t₁.root = t₂.root := hroot
  have hidx : jsIndexOf chordPriority t₁.type = jsIndexOf chordPriority t₂.type := by
    have e₁ : effTypeIndex (matchOfTemplate pcs t₁) = jsIndexOf chordPriority t₁.type := hia.2
    have e₂ : effTypeIndex (matchOfTemplate pcs t₂) = jsIndexOf chordPriority t₂.type := hib.2
    rw [← e₁, ← e₂, hti]
  have hty : t₁.type = t₂.type := by
    unfold jsIndexOf at hidx
    rw [if_pos hmem₁, if_pos hmem₂] at hidx
    have hn : chordPriority.indexOf t₁.type = chordPriority.indexOf t₂.type := by
      exact_mod_cast hidx
    exact (List.indexOf_inj hmem₁ hmem₂).mp hn
  have ht : t₁ = t₂ :=
    List.inj_on_of_nodup_map templatesKey_nodup ht₁ ht₂ (by rw [Prod.ext_iff]; exact ⟨hr, hty⟩)
  rw [ht]

/-! ### Sortedness of the output -/

theorem sortMatches_sorted (l : List Match) : (sortMatches l).Pairwise MatchLE := by
  haveI : IsTrans Match MatchLE := ⟨fun _ _ _ => cmpMatch_trans⟩
  haveI : IsTotal Match MatchLE := ⟨cmpMatch_total⟩
  exact List.sorted_insertionSort MatchLE l

theorem sortMatches_perm (l : List Match) : List.Perm (sortMatches l) l :=
  List.perm_insertionSort MatchLE l

theorem sortMatches_general_pairwise (pcs : List Int) :
    (sortMatches (generalResults pcs)).Pairwise specKeyLt := by
  have hs := sortMatches_sorted (generalResults pcs)
  have hperm := sortMatches_perm (generalResults pcs)
  have hnd : (sortMatches (generalResults pcs)).Nodup :=
    hperm.nodup_iff.mpr (generalResults_nodup pcs)
  refine (hs.and hnd).imp_of_mem ?_
  intro a b hma hmb hmix
  have ha' : a ∈ generalResults pcs := hperm.mem_iff.mp hma
  have hb' : b ∈ generalResults pcs := hperm.mem_iff.mp hmb
  by_cases hz : cmpMatch a b = 0
  · exact absurd (generalResults_eq_of_cmp ha' hb' hz) hmix.2
  · have hlt : cmpMatch a b < 0 := by
      have hle : cmpMatch a b ≤ 0 := hmix.1
      omega
    exact (cmpMatch_lt_iff a b).mp hlt

theorem specKeyLt_imp_le {a b : Match} (h : specKeyLt a b) : MatchLE a b := by
  have : cmpMatch a b < 0 := (cmpMatch_lt_iff a b).mpr h
  unfold MatchLE
  omega

/-! ### `recognize` branch reductions -/

theorem recognize_nil : recognize [] = [] := rfl

theorem recognize_one {notes : List Int} (h : ¬ notes.length = 0)
    (h1 : (midiArrayToPCSet notes).length = 1) :
    recognize notes = [singleMatch ((midiArrayToPCSet notes).headD 0)] := by
  unfold recognize
  rw [if_neg h]
  simp only [h1, if_pos]

theorem recognize_two {notes : List Int} (h : ¬ notes.length = 0)
    (h2 : (midiArrayToPCSet notes).length = 2) :
    recognize notes = dyadBranch notes (midiArrayToPCSet notes) := by
  unfold recognize
  rw [if_neg h]
  have h1 : ¬ (midiArrayToPCSet notes).length = 1 := by omega
  simp only [h1, h2, if_neg, if_pos, if_false, if_true]
  norm_num

theorem recognize_general {notes : List Int}
    (h3 : 3 ≤ (midiArrayToPCSet notes).length) :
    recognize notes = sortMatches (generalResults (midiArrayToPCSet notes)) := by
  have h : ¬ notes.length = 0 := by
    intro h0
    have : notes = [] := List.length_eq_zero.mp h0
    rw [this] at h3
    simp [midiArrayToPCSet] at h3
  unfold recognize
  rw [if_neg h]
  have h1 : ¬ (midiArrayToPCSet notes).length = 1 := by omega
  have h2 : ¬ (midiArrayToPCSet notes).length = 2 := by omega
  simp only [h1, h2, if_neg, if_false]

/-! ### Dyad branch analysis -/

theorem dyadBranch_pairwise (arr pcs : List Int) :
    (dyadBranch arr pcs).Pairwise specKeyLt := by
  unfold dyadBranch
  split_ifs <;>
    first
      | exact List.pairwise_singleton _ _
      | exact sortMatches_general_pairwise pcs

theorem dyad_lower_higher (arr : List Int) {a b : Int} (hne : a ≠ b) :
    (dyadLowerPC arr [a, b] = a ∧ dyadHigherPC arr [a, b] = b) ∨
    (dyadLowerPC arr [a, b] = b ∧ dyadHigherPC arr [a, b] = a) := by
  have hA : dyadPCA [a, b] = a := rfl
  have hB : dyadPCB [a, b] = b := rfl
  unfold dyadHigherPC dyadLowerPC
  rw [hA, hB]
  by_cases hc : (pcToMinMidi arr a).getD 0 ≤ (pcToMinMidi arr b).getD 0
  · left
    rw [if_pos hc, if_pos rfl]
    exact ⟨rfl, rfl⟩
  · right
    rw [if_neg hc, if_neg hne.symm]
    exact ⟨rfl, rfl⟩

theorem dyadInterval_ne_zero (arr : List Int) {a b : Int} (hne : a ≠ b)
    (ha : 0 ≤ a ∧ a < 12) (hb : 0 ≤ b ∧ b < 12) :
    dyadInterval arr [a, b] ≠ 0 := by
  unfold dyadInterval
  rcases dyad_lower_higher arr hne with ⟨hl, hh⟩ | ⟨hl, hh⟩ <;> rw [hl, hh] <;>
    rw [Int.tmod_eq_emod (by omega) (by norm_num)] <;> omega

/-! ### Claim theorems -/

/-- C1: for every non-empty input, `recognize` returns its matches sorted
strictly by the five-key §4.4 comparator (`exactMatch` desc, then
`matchedCount` desc, then chord-priority index asc with absent types last,
then `chordSize` asc, then `root` asc); that comparator ties no two
distinct candidates of the call (it is a strict total order on the
candidate set), and re-sorting the output leaves it unchanged. -/
theorem recognize_sorted_strict_total (notes : List Int) (h : notes ≠ []) :
    (recognize notes).Pairwise specKeyLt
    ∧ (∀ a ∈ generalResults (midiArrayToPCSet notes),
        ∀ b ∈ generalResults (midiArrayToPCSet notes), cmpMatch a b = 0 → a = b)
    ∧ sortMatches (recognize notes) = recognize notes := by
  have hlen : ¬ notes.length = 0 := fun h0 => h (List.length_eq_zero.mp h0)
  have hne : midiArrayToPCSet notes ≠ [] := fun e => h (midiArrayToPCSet_eq_nil.mp e)
  have hlpos : 0 < (midiArrayToPCSet notes).length := List.length_pos.mpr hne
  have hpair : (recognize notes).Pairwise specKeyLt := by
    by_cases h1 : (midiArrayToPCSet notes).length = 1
    · rw [recognize_one hlen h1]
      exact List.pairwise_singleton _ _
    · by_cases h2 : (midiArrayToPCSet notes).length = 2
      · rw [recognize_two hlen h2]
        exact dyadBranch_pairwise _ _
      · rw [recognize_general (by omega)]
        exact sortMatches_general_pairwise _
  refine ⟨hpair, fun a ha b hb => generalResults_eq_of_cmp ha hb, ?_⟩
  have hle : (recognize notes).Pairwise MatchLE := hpair.imp specKeyLt_imp_le
  exact List.Sorted.insertionSort_eq hle

/-- Witness for C1 at the concrete input `[60]`. -/
theorem recognize_sorted_strict_total_witness :
    (recognize [60]).Pairwise specKeyLt
    ∧ (∀ a ∈ generalResults (midiArrayToPCSet [60]),
        ∀ b ∈ generalResults (midiArrayToPCSet [60]), cmpMatch a b = 0 → a = b)
    ∧ sortMatches (recognize [60]) = recognize [60] :=
  recognize_sorted_strict_total [60] (by decide)

/-- C3: when every pressed note reduces to one pitch class, `recognize`
short-circuits to the single synthetic `"single"` match rooted at that
pitch class (with `matchedCount = 1`, `chordSize = 1`, `isSubset` and
`exactMatch` true); in particular `recognize [60]` and
`recognize [60,72,84]` return the identical output. -/
theorem recognize_single_pitch_class (notes : List Int) (p : Int)
    (h1 : notes ≠ []) (h2 : ∀ n ∈ notes, pcOf n = p) :
    recognize notes = [singleMatch p]
    ∧ (singleMatch p).type = "single" ∧ (singleMatch p).root = p
    ∧ (singleMatch p).matchedCount = 1 ∧ (singleMatch p).chordSize = 1
    ∧ (singleMatch p).isSubset = true ∧ (singleMatch p).exactMatch = true
    ∧ recognize [60] = recognize [60, 72, 84] := by
  have hpcs : midiArrayToPCSet notes = [p] := midiArrayToPCSet_const h1 h2
  have hlen : ¬ notes.length = 0 := fun h0 => h1 (List.length_eq_zero.mp h0)
  refine ⟨?_, rfl, rfl, rfl, rfl, rfl, rfl, by decide⟩
  rw [recognize_one hlen (by rw [hpcs]; rfl), hpcs]
  rfl

/-- Witness for C3 at the concrete input `[60, 72]` (two octaves of C). -/
theorem recognize_single_pitch_class_witness :
    recognize [60, 72] = [singleMatch 0]
    ∧ (singleMatch 0).type = "single" ∧ (singleMatch 0).root = 0
    ∧ (singleMatch 0).matchedCount = 1 ∧ (singleMatch 0).chordSize = 1
    ∧ (singleMatch 0).isSubset = true ∧ (singleMatch 0).exactMatch = true
    ∧ recognize [60] = recognize [60, 72, 84] :=
  recognize_single_pitch_class [60, 72] 0 (by decide) (by decide)

/-- C4: with exactly two distinct pitch classes, the lower one being the
class whose lowest observed note id is smaller, a pitch-class interval of
7 gives a single `"fifth"` match rooted on the lower class, an interval of
5 gives a single `"fifth"` match rooted on the upper class, and any other
dyad falls through to general template matching; concretely
`recognize [60,67]` is `C` fifth and `recognize [60,65]` is `F` fifth. -/
theorem recognize_dyad_rules (notes : List Int)
    (h2 : (midiArrayToPCSet notes).length = 2) :
    (dyadInterval notes (midiArrayToPCSet notes) = 7 →
      recognize notes =
        [fifthMatch (dyadLowerPC notes (midiArrayToPCSet notes))
          (dyadLowerPC notes (midiArrayToPCSet notes))
          (dyadHigherPC notes (midiArrayToPCSet notes))])
    ∧ (dyadInterval notes (midiArrayToPCSet notes) = 5 →
      recognize notes =
        [fifthMatch (dyadHigherPC notes (midiArrayToPCSet notes))
          (dyadLowerPC notes (midiArrayToPCSet notes))
          (dyadHigherPC notes (midiArrayToPCSet notes))])
    ∧ (dyadInterval notes (midiArrayToPCSet notes) ≠ 7 →
       dyadInterval notes (midiArrayToPCSet notes) ≠ 5 →
      recognize notes = sortMatches (generalResults (midiArrayToPCSet notes)))
    ∧ recognize [60, 67] = [fifthMatch 0 0 7]
    ∧ recognize [60, 65] = [fifthMatch 5 0 5] := by
  have hlen : ¬ notes.length = 0 := by
    intro h0
    rw [List.length_eq_zero.mp h0] at h2
    simp [midiArrayToPCSet] at h2
  have hrec : recognize notes = dyadBranch notes (midiArrayToPCSet notes) :=
    recognize_two hlen h2
  obtain ⟨a, b, hab⟩ := List.length_eq_two.mp h2
  have hnd := midiArrayToPCSet_nodup notes
  rw [hab] at hnd
  have hne : a ≠ b := by simp at hnd; exact hnd
  have ha : 0 ≤ a ∧ a < 12 := midiArrayToPCSet_bounds (by rw [hab]; simp)
  have hb : 0 ≤ b ∧ b < 12 := midiArrayToPCSet_bounds (by rw [hab]; simp)
  have hint0 : dyadInterval notes (midiArrayToPCSet notes) ≠ 0 := by
    rw [hab]
    exact dyadInterval_ne_zero notes hne ha hb
  refine ⟨?_, ?_, ?_, by decide, by decide⟩
  · intro h7
    rw [hrec]
    unfold dyadBranch
    rw [if_neg hint0, if_pos h7]
  · intro h5
    have h7 : dyadInterval notes (midiArrayToPCSet notes) ≠ 7 := by omega
    rw [hrec]
    unfold dyadBranch
    rw [if_neg hint0, if_neg h7, if_pos h5]
  · intro h7 h5
    rw [hrec]
    unfold dyadBranch
    rw [if_neg hint0, if_neg h7, if_neg h5]

/-- Witness for C4 at the concrete input `[60, 67]`. -/
theorem recognize_dyad_rules_witness :
    (dyadInterval [60, 67] (midiArrayToPCSet [60, 67]) = 7 →
      recognize [60, 67] =
        [fifthMatch (dyadLowerPC [60, 67] (midiArrayToPCSet [60, 67]))
          (dyadLowerPC [60, 67] (midiArrayToPCSet [60, 67]))
          (dyadHigherPC [60, 67] (midiArrayToPCSet [60, 67]))])
    ∧ (dyadInterval [60, 67] (midiArrayToPCSet [60, 67]) = 5 →
      recognize [60, 67] =
        [fifthMatch (dyadHigherPC [60, 67] (midiArrayToPCSet [60, 67]))
          (dyadLowerPC [60, 67] (midiArrayToPCSet [60, 67]))
          (dyadHigherPC [60, 67] (midiArrayToPCSet [60, 67]))])
    ∧ (dyadInterval [60, 67] (midiArrayToPCSet [60, 67]) ≠ 7 →
       dyadInterval [60, 67] (midiArrayToPCSet [60, 67]) ≠ 5 →
      recognize [60, 67] = sortMatches (generalResults (midiArrayToPCSet [60, 67])))
    ∧ recognize [60, 67] = [fifthMatch 0 0 7]
    ∧ recognize [60, 65] = [fifthMatch 5 0 5] :=
  recognize_dyad_rules [60, 67] (by decide)

theorem mem_sortMatches {l : List Match} {m : Match} : m ∈ sortMatches l ↔ m ∈ l :=
  List.mem_insertionSort MatchLE

theorem matchedCount_eq_inter_card {pcs : List Int} (hnd : pcs.Nodup) (t : Template) :
    (matchOfTemplate pcs t).matchedCount = ((pcs.toFinset ∩ t.pcs.toFinset).card : Int) := by
  show ((pcs.countP (fun p => p ∈ t.pcs) : Nat) : Int) = _
  have h1 : pcs.countP (fun p => p ∈ t.pcs) =
      (pcs.filter (fun p => p ∈ t.pcs)).length :=
    List.countP_eq_length_filter _ pcs
  have h2 : (pcs.filter (fun p => p ∈ t.pcs)).toFinset = pcs.toFinset ∩ t.pcs.toFinset := by
    ext x
    simp [List.mem_toFinset, List.mem_filter, Finset.mem_inter]
  have h3 : (pcs.filter (fun p => p ∈ t.pcs)).toFinset.card =
      (pcs.filter (fun p => p ∈ t.pcs)).length :=
    List.toFinset_card_of_nodup (hnd.filter _)
  rw [h1, ← h3, h2]

theorem generalResults_isSubset_eq_exactMatch {pcs : List Int} {m : Match}
    (hm : m ∈ generalResults pcs) : m.isSubset = m.exactMatch := by
  obtain ⟨t, _, _, rfl⟩ := mem_generalResults.mp hm
  show pcs.all (fun p => p ∈ t.pcs) =
    decide (pcs.countP (fun p => p ∈ t.pcs) = pcs.length)
  have h1 : pcs.all (fun p => p ∈ t.pcs) = true ↔ ∀ p ∈ pcs, p ∈ t.pcs := by
    simp [List.all_eq_true]
  have h2 : decide (pcs.countP (fun p => p ∈ t.pcs) = pcs.length) = true ↔
      ∀ p ∈ pcs, p ∈ t.pcs := by
    rw [decide_eq_true_iff, List.countP_eq_length]
    simp
  by_cases hp : ∀ p ∈ pcs, p ∈ t.pcs
  · rw [h1.mpr hp, h2.mpr hp]
  · have hA : pcs.all (fun p => p ∈ t.pcs) = false := by
      rw [Bool.eq_false_iff]
      exact fun hc => hp (h1.mp hc)
    have hB : decide (pcs.countP (fun p => p ∈ t.pcs) = pcs.length) = false := by
      rw [Bool.eq_false_iff]
      exact fun hc => hp (h2.mp hc)
    rw [hA, hB]

/-- C2: in general matching, every overlapping template contributes one
match whose `matchedCount` is the size of the pitch-class intersection,
whose `missingPCs`/`extraPCs` are the set differences, whose `isSubset`
says the pressed classes are contained in the template, and whose
`exactMatch` says the intersection covers everything pressed; zero-overlap
templates contribute nothing. Concretely, for pressed `{0,4}` the `major`
template at root 0 reports `matchedCount = 2`, `missingPCs = [7]`,
`isSubset = true`, `exactMatch = true`, and that match is in
`recognize [60,64]`. -/
theorem general_matching_fields (pcs : List Int) (t : Template) (hnd : pcs.Nodup)
    (ht : t ∈ templates) (hov : ¬ pcs.countP (fun p => p ∈ t.pcs) = 0) :
    matchOfTemplate pcs t ∈ generalResults pcs
    ∧ (matchOfTemplate pcs t).matchedCount = ((pcs.toFinset ∩ t.pcs.toFinset).card : Int)
    ∧ (∀ x : Int, x ∈ (matchOfTemplate pcs t).missingPCs ↔ x ∈ t.pcs ∧ ¬ x ∈ pcs)
    ∧ (∀ x : Int, x ∈ (matchOfTemplate pcs t).extraPCs ↔ x ∈ pcs ∧ ¬ x ∈ t.pcs)
    ∧ ((matchOfTemplate pcs t).isSubset = true ↔ ∀ p ∈ pcs, p ∈ t.pcs)
    ∧ ((matchOfTemplate pcs t).exactMatch = true ↔
        (matchOfTemplate pcs t).matchedCount = (pcs.toFinset.card : Int))
    ∧ (∀ m ∈ generalResults pcs, ¬ m.matchedCount = 0)
    ∧ (matchOfTemplate [0, 4] (mkTemplate 0 "major" [0, 4, 7])).matchedCount = 2
    ∧ (matchOfTemplate [0, 4] (mkTemplate 0 "major" [0, 4, 7])).missingPCs = [7]
    ∧ (matchOfTemplate [0, 4] (mkTemplate 0 "major" [0, 4, 7])).isSubset = true
    ∧ (matchOfTemplate [0, 4] (mkTemplate 0 "major" [0, 4, 7])).exactMatch = true
    ∧ mkTemplate 0 "major" [0, 4, 7] ∈ templates
    ∧ matchOfTemplate [0, 4] (mkTemplate 0 "major" [0, 4, 7]) ∈ recognize [60, 64] := by
  have htmem : mkTemplate 0 "major" [0, 4, 7] ∈ templates := by
    rw [mem_templates_iff]
    exact ⟨0, by decide, ("major", [0, 4, 7]), by decide, rfl⟩
  have hconc : matchOfTemplate [0, 4] (mkTemplate 0 "major" [0, 4, 7]) ∈ recognize [60, 64] := by
    have hrec : recognize [60, 64] =
        sortMatches (generalResults (midiArrayToPCSet [60, 64])) := by
      rw [recognize_two (by decide) (by decide)]
      unfold dyadBranch
      rw [if_neg (by decide), if_neg (by decide), if_neg (by decide)]
    rw [hrec, mem_sortMatches]
    have hpc : midiArrayToPCSet [60, 64] = [0, 4] := by decide
    rw [hpc]
    exact mem_generalResults.mpr ⟨mkTemplate 0 "major" [0, 4, 7], htmem, by decide, by decide⟩
  refine ⟨mem_generalResults.mpr ⟨t, ht, hov, rfl⟩,
    matchedCount_eq_inter_card hnd t, ?_, ?_, ?_, ?_, ?_,
    by decide, by decide, by decide, by decide, htmem, hconc⟩
  · intro x
    show x ∈ t.pcs.filter (fun cp => ¬ cp ∈ pcs) ↔ _
    simp [List.mem_filter]
  · intro x
    show x ∈ pcs.filter (fun p => ¬ p ∈ t.pcs) ↔ _
    simp [List.mem_filter]
  · show pcs.all (fun p => p ∈ t.pcs) = true ↔ _
    simp [List.all_eq_true]
  · show decide (pcs.countP (fun p => p ∈ t.pcs) = pcs.length) = true ↔ _
    rw [decide_eq_true_iff]
    have hcard : (pcs.toFinset.card : Int) = (pcs.length : Int) := by
      exact_mod_cast List.toFinset_card_of_nodup hnd
    constructor
    · intro hc
      show ((pcs.countP (fun p => p ∈ t.pcs) : Nat) : Int) = _
      rw [hc, hcard]
    · intro hc
      have : ((pcs.countP (fun p => p ∈ t.pcs) : Nat) : Int) = (pcs.length : Int) := by
        rw [← hcard]; exact hc
      exact_mod_cast this
  · intro m hm
    obtain ⟨t', _, hov', rfl⟩ := mem_generalResults.mp hm
    show ¬ ((pcs.countP (fun p => p ∈ t'.pcs) : Nat) : Int) = 0
    intro hz
    exact hov' (by exact_mod_cast hz)

/-- Witness for C2 at the concrete pressed set `{0,4}` and the `major`
template at root 0. -/
theorem general_matching_fields_witness :
    matchOfTemplate [0, 4] (mkTemplate 0 "major" [0, 4, 7]) ∈ generalResults [0, 4] :=
  (general_matching_fields [0, 4] (mkTemplate 0 "major" [0, 4, 7]) (by decide)
    (by rw [mem_templates_iff]; exact ⟨0, by decide, ("major", [0, 4, 7]), by decide, rfl⟩)
    (by decide)).1

/-- C9: every match `recognize` ever returns has `isSubset = exactMatch`:
for template matches both flags are equivalent to "every pressed pitch
class is a chord tone", and the synthetic single/fifth matches set both
to `true`. -/
theorem recognize_isSubset_eq_exactMatch (notes : List Int) :
    ∀ m ∈ recognize notes, m.isSubset = m.exactMatch := by
  intro m hm
  by_cases h0 : notes.length = 0
  · rw [List.length_eq_zero.mp h0, recognize_nil] at hm
    simp at hm
  by_cases h1 : (midiArrayToPCSet notes).length = 1
  · rw [recognize_one h0 h1] at hm
    simp at hm
    rw [hm]
    rfl
  by_cases h2 : (midiArrayToPCSet notes).length = 2
  · rw [recognize_two h0 h2] at hm
    unfold dyadBranch at hm
    split_ifs at hm
    · simp at hm; rw [hm]; rfl
    · simp at hm; rw [hm]; rfl
    · simp at hm; rw [hm]; rfl
    · rw [mem_sortMatches] at hm
      exact generalResults_isSubset_eq_exactMatch hm
  · have hne : notes ≠ [] := fun e => h0 (by rw [e]; rfl)
    have hne2 : midiArrayToPCSet notes ≠ [] := fun e => hne (midiArrayToPCSet_eq_nil.mp e)
    have hpos : 0 < (midiArrayToPCSet notes).length := List.length_pos.mpr hne2
    rw [recognize_general (by omega)] at hm
    rw [mem_sortMatches] at hm
    exact generalResults_isSubset_eq_exactMatch hm

/-- Witness for C9 at the concrete input `[60]` and its returned match. -/
theorem recognize_isSubset_eq_exactMatch_witness :
    (singleMatch 0).isSubset = (singleMatch 0).exactMatch :=
  recognize_isSubset_eq_exactMatch [60] (singleMatch 0) (by decide)

/-! ### Naming (`formatMatch`) claims -/

theorem rootNameOf_pc_ne_empty (n : Int) : ¬ rootNameOf (pcOf n) = "" := by
  have h1 := pcOf_nonneg n
  have h2 := pcOf_lt n
  have hk : (pcOf n).toNat < 12 := by omega
  unfold rootNameOf
  exact (by decide : ∀ k : Nat, k < 12 → ¬ ROOT_NAMES.getD k "" = "") _ hk

/-- C5: for a non-`"single"` match of at most four chord tones with a
non-empty sounding set, `formatMatch` takes the bass from the lowest
sounding note, looks its pitch class up in the root-transposed ordered
formula, and words the inversion as "no chord tone in bass" (`idx = -1`),
"root position" (`idx = 0`) or the ordinal inversion label (`idx ≥ 1`);
concretely C major over `[64,67,72]` is a "1st inversion" with bass `E`. -/
theorem formatMatch_inversion_rules (m : Match) (pressed : List Int)
    (hty : ¬ m.type = "single") (hcs : m.chordSize ≤ 4) (hne : ¬ pressed.length = 0) :
    (formatMatch m pressed).bassName = some (rootNameOf (pcOf (jsMin pressed)))
    ∧ (formatMatch m pressed).inversion = some (
        if jsIndexOf ((formulaOf m.type).map (fun i => pcOf (m.root + i)))
            (pcOf (jsMin pressed)) = -1 then "no chord tone in bass"
        else if jsIndexOf ((formulaOf m.type).map (fun i => pcOf (m.root + i)))
            (pcOf (jsMin pressed)) = 0 then "root position"
        else ordinalLabel (jsIndexOf ((formulaOf m.type).map (fun i => pcOf (m.root + i)))
            (pcOf (jsMin pressed))) ++ " inversion")
    ∧ (formatMatch (matchOfTemplate [4, 7, 0] (mkTemplate 0 "major" [0, 4, 7]))
        [64, 67, 72]).inversion = some "1st inversion"
    ∧ (formatMatch (matchOfTemplate [4, 7, 0] (mkTemplate 0 "major" [0, 4, 7]))
        [64, 67, 72]).bassName = some "E" := by
  have hlen : pressed.length > 0 := by omega
  refine ⟨?_, ?_, by decide, by decide⟩
  · unfold formatMatch
    rw [if_neg hty, if_pos hlen]
  · unfold formatMatch
    rw [if_neg hty, if_pos hlen]
    simp only []
    rw [if_pos hcs]

/-- Witness for C5 at the C-major match over `[64, 67, 72]`. -/
theorem formatMatch_inversion_rules_witness :
    (formatMatch (matchOfTemplate [4, 7, 0] (mkTemplate 0 "major" [0, 4, 7]))
        [64, 67, 72]).bassName =
      some (rootNameOf (pcOf (jsMin [64, 67, 72])))
    ∧ (formatMatch (matchOfTemplate [4, 7, 0] (mkTemplate 0 "major" [0, 4, 7]))
        [64, 67, 72]).inversion = some (
        if jsIndexOf ((formulaOf (matchOfTemplate [4, 7, 0]
              (mkTemplate 0 "major" [0, 4, 7])).type).map
              (fun i => pcOf ((matchOfTemplate [4, 7, 0]
                (mkTemplate 0 "major" [0, 4, 7])).root + i)))
            (pcOf (jsMin [64, 67, 72])) = -1 then "no chord tone in bass"
        else if jsIndexOf ((formulaOf (matchOfTemplate [4, 7, 0]
              (mkTemplate 0 "major" [0, 4, 7])).type).map
              (fun i => pcOf ((matchOfTemplate [4, 7, 0]
                (mkTemplate 0 "major" [0, 4, 7])).root + i)))
            (pcOf (jsMin [64, 67, 72])) = 0 then "root position"
        else ordinalLabel (jsIndexOf ((formulaOf (matchOfTemplate [4, 7, 0]
              (mkTemplate 0 "major" [0, 4, 7])).type).map
              (fun i => pcOf ((matchOfTemplate [4, 7, 0]
                (mkTemplate 0 "major" [0, 4, 7])).root + i)))
            (pcOf (jsMin [64, 67, 72]))) ++ " inversion")
    ∧ (formatMatch (matchOfTemplate [4, 7, 0] (mkTemplate 0 "major" [0, 4, 7]))
        [64, 67, 72]).inversion = some "1st inversion"
    ∧ (formatMatch (matchOfTemplate [4, 7, 0] (mkTemplate 0 "major" [0, 4, 7]))
        [64, 67, 72]).bassName = some "E" :=
  formatMatch_inversion_rules (matchOfTemplate [4, 7, 0] (mkTemplate 0 "major" [0, 4, 7]))
    [64, 67, 72] (by decide) (by decide) (by decide)

/-- C6: a match with more than four chord tones always formats with
inversion "slash bass" and a `/bass` suffix on the display name, and a
two-note `"fifth"` match whose bass name differs from the root name also
gets the `/bass` suffix; concretely the `C9` match over
`[62,64,67,70,72]` formats as `C⁹/D` with inversion "slash bass". -/
theorem formatMatch_slash_rules (m : Match) (pressed : List Int)
    (hty : ¬ m.type = "single") (hne : ¬ pressed.length = 0) :
    (4 < m.chordSize →
      (formatMatch m pressed).inversion = some "slash bass"
      ∧ (formatMatch m pressed).displayName =
          m.rootName ++ suffixOf m.type ++ "/" ++ rootNameOf (pcOf (jsMin pressed)))
    ∧ (m.chordSize = 2 → m.type = "fifth" →
        ¬ rootNameOf (pcOf (jsMin pressed)) = m.rootName →
      (formatMatch m pressed).displayName =
          m.rootName ++ suffixOf m.type ++ "/" ++ rootNameOf (pcOf (jsMin pressed)))
    ∧ (formatMatch (matchOfTemplate [2, 4, 7, 10, 0] (mkTemplate 0 "9" [0, 4, 7, 10, 14]))
        [62, 64, 67, 70, 72]).displayName = "C⁹/D"
    ∧ (formatMatch (matchOfTemplate [2, 4, 7, 10, 0] (mkTemplate 0 "9" [0, 4, 7, 10, 14]))
        [62, 64, 67, 70, 72]).inversion = some "slash bass" := by
  have hlen : pressed.length > 0 := by omega
  have hbn : ¬ rootNameOf (pcOf (jsMin pressed)) = "" := rootNameOf_pc_ne_empty _
  refine ⟨?_, ?_, by decide, by decide⟩
  · intro hbig
    have hnot4 : ¬ m.chordSize ≤ 4 := by omega
    constructor <;> (unfold formatMatch; rw [if_neg hty, if_pos hlen]; simp only [])
    · rw [if_neg hnot4]
    · rw [if_pos ⟨hbig, hbn⟩]
  · intro hsz hfifth hdiff
    have hnotbig : ¬ (4 < m.chordSize ∧ ¬ rootNameOf (pcOf (jsMin pressed)) = "") := by
      intro hc
      omega
    unfold formatMatch
    rw [if_neg hty, if_pos hlen]
    simp only []
    rw [if_neg hnotbig, if_pos ⟨hbn, hsz, hfifth⟩, if_pos hdiff]

/-- Witness for C6 at the `C9` match over `[62, 64, 67, 70, 72]`. -/
theorem formatMatch_slash_rules_witness :
    (4 < (matchOfTemplate [2, 4, 7, 10, 0] (mkTemplate 0 "9" [0, 4, 7, 10, 14])).chordSize →
      (formatMatch (matchOfTemplate [2, 4, 7, 10, 0] (mkTemplate 0 "9" [0, 4, 7, 10, 14]))
        [62, 64, 67, 70, 72]).inversion = some "slash bass"
      ∧ (formatMatch (matchOfTemplate [2, 4, 7, 10, 0] (mkTemplate 0 "9" [0, 4, 7, 10, 14]))
        [62, 64, 67, 70, 72]).displayName =
          (matchOfTemplate [2, 4, 7, 10, 0] (mkTemplate 0 "9" [0, 4, 7, 10, 14])).rootName ++
            suffixOf (matchOfTemplate [2, 4, 7, 10, 0]
              (mkTemplate 0 "9" [0, 4, 7, 10, 14])).type ++ "/" ++
            rootNameOf (pcOf (jsMin [62, 64, 67, 70, 72])))
    ∧ ((matchOfTemplate [2, 4, 7, 10, 0] (mkTemplate 0 "9" [0, 4, 7, 10, 14])).chordSize = 2 →
        (matchOfTemplate [2, 4, 7, 10, 0] (mkTemplate 0 "9" [0, 4, 7, 10, 14])).type = "fifth" →
        ¬ rootNameOf (pcOf (jsMin [62, 64, 67, 70, 72])) =
            (matchOfTemplate [2, 4, 7, 10, 0] (mkTemplate 0 "9" [0, 4, 7, 10, 14])).rootName →
      (formatMatch (matchOfTemplate [2, 4, 7, 10, 0] (mkTemplate 0 "9" [0, 4, 7, 10, 14]))
        [62, 64, 67, 70, 72]).displayName =
          (matchOfTemplate [2, 4, 7, 10, 0] (mkTemplate 0 "9" [0, 4, 7, 10, 14])).rootName ++
            suffixOf (matchOfTemplate [2, 4, 7, 10, 0]
              (mkTemplate 0 "9" [0, 4, 7, 10, 14])).type ++ "/" ++
            rootNameOf (pcOf (jsMin [62, 64, 67, 70, 72])))
    ∧ (formatMatch (matchOfTemplate [2, 4, 7, 10, 0] (mkTemplate 0 "9" [0, 4, 7, 10, 14]))
        [62, 64, 67, 70, 72]).displayName = "C⁹/D"
    ∧ (formatMatch (matchOfTemplate [2, 4, 7, 10, 0] (mkTemplate 0 "9" [0, 4, 7, 10, 14]))
        [62, 64, 67, 70, 72]).inversion = some "slash bass" :=
  formatMatch_slash_rules (matchOfTemplate [2, 4, 7, 10, 0] (mkTemplate 0 "9" [0, 4, 7, 10, 14]))
    [62, 64, 67, 70, 72] (by decide) (by decide)

/-- C7 counterexample: the `"single"` branch of `formatMatch` does not
leave `bassName` null — it sets it to the root name. -/
theorem formatMatch_single_bassName_cex :
    (formatMatch (singleMatch 0) [60]).bassName = some "C"
    ∧ ¬ (formatMatch (singleMatch 0) [60]).bassName = none := by
  decide

/-- C7 (amended): for a `"single"` match `formatMatch` returns the bare
root name as display name, long name "Single Note", no inversion — and
`bassName` set to the root name (not null). -/
theorem formatMatch_single_branch (m : Match) (pressed : List Int)
    (h : m.type = "single") :
    formatMatch m pressed =
      { displayName := m.rootName, inversion := none, bassName := some m.rootName,
        longName := "Single Note" } := by
  unfold formatMatch
  rw [if_pos h]

/-- Witness for the amended C7 at `singleMatch 0` and `[60]`. -/
theorem formatMatch_single_branch_witness :
    formatMatch (singleMatch 0) [60] =
      { displayName := (singleMatch 0).rootName, inversion := none,
        bassName := some (singleMatch 0).rootName, longName := "Single Note" } :=
  formatMatch_single_branch (singleMatch 0) [60] (by decide)

/-- C8: `recognize` is total (it is a Lean function, defined on every
input); the empty array — and hence the empty `Set`, which `Array.from`
turns into the same empty list before the emptiness guard returns — gives
the empty match list, and pitch-class reduction normalizes every integer,
negative ones included, to `((n % 12) + 12) % 12 ∈ [0, 11]` (with `%` the
JavaScript remainder, `Int.tmod`), which equals the mathematical
`n mod 12`; `recognize [-3]` returns the pitch-class-9 single match. -/
theorem recognize_total_normalizes :
    recognize [] = []
    ∧ (∀ n : Int, pcOf n = ((n.tmod 12) + 12).tmod 12
        ∧ 0 ≤ pcOf n ∧ pcOf n < 12 ∧ pcOf n = n % 12)
    ∧ recognize [(-3 : Int)] = [singleMatch 9] :=
  ⟨rfl, fun n => ⟨rfl, pcOf_nonneg n, pcOf_lt n, pcOf_eq_emod n⟩, by decide⟩

/-- C10 counterexample: two inputs with the same pitch-class *set* (as a
set) of size 3 but different first-occurrence order produce different
match lists — the per-match `matchedPCs`/`extraPCs` arrays follow the
pressed set's insertion order. -/
theorem recognize_pcset_order_cex :
    List.Perm (midiArrayToPCSet [60, 64, 67]) (midiArrayToPCSet [64, 60, 67])
    ∧ 3 ≤ (midiArrayToPCSet [60, 64, 67]).length
    ∧ ¬ recognize [60, 64, 67] = recognize [64, 60, 67] := by
  have htmem : mkTemplate 0 "major" [0, 4, 7] ∈ templates := by
    rw [mem_templates_iff]
    exact ⟨0, by decide, ("major", [0, 4, 7]), by decide, rfl⟩
  refine ⟨by decide, by decide, ?_⟩
  intro he
  have h1 : recognize [60, 64, 67] = sortMatches (generalResults [0, 4, 7]) := by
    rw [recognize_general (by decide), (by decide : midiArrayToPCSet [60, 64, 67] = [0, 4, 7])]
  have h2 : recognize [64, 60, 67] = sortMatches (generalResults [4, 0, 7]) := by
    rw [recognize_general (by decide), (by decide : midiArrayToPCSet [64, 60, 67] = [4, 0, 7])]
  have hm0 : matchOfTemplate [0, 4, 7] (mkTemplate 0 "major" [0, 4, 7]) ∈
      recognize [60, 64, 67] := by
    rw [h1, mem_sortMatches]
    exact mem_generalResults.mpr ⟨mkTemplate 0 "major" [0, 4, 7], htmem, by decide, rfl⟩
  rw [he, h2, mem_sortMatches] at hm0
  obtain ⟨t', ht', _, heq⟩ := mem_generalResults.mp hm0
  have hroot : (0 : Int) = t'.root := congrArg Match.root heq
  have htype : "major" = t'.type := congrArg Match.type heq
  have ht'eq : t' = mkTemplate 0 "major" [0, 4, 7] :=
    List.inj_on_of_nodup_map templatesKey_nodup ht' htmem
      (by rw [Prod.ext_iff]; exact ⟨hroot.symm, htype.symm⟩)
  rw [ht'eq] at heq
  have := congrArg Match.matchedPCs heq
  exact absurd this (by decide)

/-- C10 (amended): for three or more distinct pitch classes, the output of
`recognize` is a function of the reduced pitch-class sequence (the pressed
set in insertion order): two inputs with the same `midiArrayToPCSet` —
whatever their octaves or duplicated notes — give identical match lists.
(Same set in a different order can differ, per the counterexample.) -/
theorem recognize_pcset_function (xs ys : List Int)
    (h : midiArrayToPCSet xs = midiArrayToPCSet ys)
    (h3 : 3 ≤ (midiArrayToPCSet xs).length) :
    recognize xs = recognize ys := by
  rw [recognize_general h3, recognize_general (by rw [← h]; exact h3), h]

/-- Witness for the amended C10: octave duplication (`72` next to `60`)
does not change the output. -/
theorem recognize_pcset_function_witness :
    recognize [60, 64, 67] = recognize [60, 64, 67, 72] :=
  recognize_pcset_function [60, 64, 67] [60, 64, 67, 72] (by decide) (by decide)

end Chords
